import Mathlib

/-!
# Join-Key Vault — verification development

A shallow embedding of the Join-Key Vault of the tero-platform backend
(`src/service/key_vault.rs`, the variant wired into the request handlers via
`AppState::get_vault`, together with the release handlers in
`src/game/handlers.rs`), with theorems settling the specification claims
about allocation, release, exhaustion, reclamation and panic-freedom.

Modelling conventions:
* `DashMap<(String, String), u64>` is an association list
  `List ((String × String) × Nat)`; `insert` conses the new entry after
  deleting any entry with the same key (a `DashMap` holds at most one entry
  per key), `remove` deletes by key, `contains_key` searches by key.
* `u8` and `u64` values are `Nat`s; the cast `len as u8` is `% 256`.
* The ChaCha8 PRNG is replaced by explicit draw inputs: each call to
  `rng.random_range(0..n)` receives an arbitrary `Nat` `r` and yields
  `r % n`; on an empty range (`n = 0`) `rand`'s `random_range` panics,
  modelled as `none` / the `panic` outcome.
* `SystemTime::now()` is an explicit `now : Nat` input (seconds since epoch).
* Database access in `load_words` is an `Option` input: `none` models an
  unreachable store (`sqlx` error), `some (p, s)` the two fetched word lists.
-/

set_option autoImplicit false

namespace TeroVault

/-- Log severities, from `system_log/models.rs` (`enum LogCeverity`). -/
inductive LogCeverity where
  | Critical
  | Warning
  | Info
  deriving DecidableEq

/-- Log actions, from `system_log/models.rs` (`enum Action`); only the
variants used by the vault matter here. -/
inductive LogAction where
  | Create
  | Read
  | Update
  | Delete
  | Sync
  | Other
  deriving DecidableEq

/-- An audit event handed to the system-log builder (`SystemLogBuilder`):
the `action`, `ceverity` and `function` fields as in the source; `count`
models the removed-key count that the reclaimer embeds in the event's
description string (`"Cleaned up {} expired keys"`). -/
structure SysLogEvent where
  action : LogAction
  ceverity : LogCeverity
  function : String
  count : Nat
  deriving DecidableEq

/-- `enum KeyVaultError` from `service/key_vault.rs` (payloads of the
`Database` and `TimeError` variants are dropped). -/
inductive KeyVaultError where
  | FullCapasity
  | Database
  | IncompatibleLength
  | TimeError
  deriving DecidableEq

/-- `struct KeyVault` from `service/key_vault.rs`: `word_count: u8`,
`active_keys: DashMap<(String, String), u64>` (join key ↦ allocation
timestamp in seconds), and the two word lists. -/
structure KeyVault where
  word_count : Nat
  active_keys : List ((String × String) × Nat)
  prefix_words : List String
  suffix_words : List String
  deriving DecidableEq

/-- `KeyVault::load_words` body after the DB fetch: rejects lists of
different lengths with `IncompatibleLength`, otherwise stores the length
cast to `u8` (`db_prefix.len() as u8`, i.e. `% 256`), an empty active map
and the two lists. No emptiness check is performed. -/
def load_words (db_prefix_words db_suffix_words : List String) :
    Except KeyVaultError KeyVault :=
  if db_prefix_words.length ≠ db_suffix_words.length then
    Except.error KeyVaultError.IncompatibleLength
  else
    Except.ok
      { word_count := db_prefix_words.length % 256
        active_keys := []
        prefix_words := db_prefix_words
        suffix_words := db_suffix_words }

/-- `KeyVault::load_words` including the `get_word_sets(pool).await?` step:
an unreachable vocabulary store (`none`) surfaces as the `Database` error. -/
def load (store : Option (List String × List String)) :
    Except KeyVaultError KeyVault :=
  match store with
  | none => Except.error KeyVaultError.Database
  | some (p, s) => load_words p s

/-- `KeyVault::key_active`: `self.active_keys.contains_key(&key)`. -/
def key_active (v : KeyVault) (key : String × String) : Bool :=
  v.active_keys.any (fun e => decide (e.1 = key))

/-- `KeyVault::remove_key`: `self.active_keys.remove(&key)` — deletes the
entry with that key, if any. -/
def remove_key (v : KeyVault) (key : String × String) : KeyVault :=
  { v with active_keys := v.active_keys.filter (fun e => decide (e.1 ≠ key)) }

/-- `DashMap::insert`: records `key ↦ created_at`, replacing any previous
entry with the same key. -/
def insert_entry (v : KeyVault) (key : String × String) (created_at : Nat) :
    KeyVault :=
  { v with
    active_keys :=
      (key, created_at) :: v.active_keys.filter (fun e => decide (e.1 ≠ key)) }

/-- `rng.random_range(0..n)` on a draw `r` of OS entropy: uniform choice in
`[0, n)` modelled as `r % n`; `rand` panics on an empty range, modelled as
`none`. -/
def random_range (r n : Nat) : Option Nat :=
  if n = 0 then none else some (r % n)

/-- `KeyVault::random_idx` (`service/key_vault.rs` lines 68–74): both
indices drawn from `0..self.word_count as usize`. In the source this
function always returns `Ok`; the only non-`Ok` behaviour is `rand`'s
panic on an empty range, which `none` models. -/
def random_idx (v : KeyVault) (r : Nat × Nat) : Option (Nat × Nat) :=
  match random_range r.1 v.word_count, random_range r.2 v.word_count with
  | some i, some j => some (i, j)
  | _, _ => none

/-- Rendering of a join key: `format!("{} {}", key.0, key.1)`. -/
def render (key : String × String) : String :=
  key.1 ++ " " ++ key.2

/-- The row-major candidate list of the exhaustive fallback scan in
`create_key` (outer loop over `prefix_words`, inner over `suffix_words`). -/
def all_pairs (v : KeyVault) : List (String × String) :=
  v.prefix_words.flatMap (fun p => v.suffix_words.map (fun s => (p, s)))

/-- Result of one `create_key` call: a fresh code plus the updated vault,
the `FullCapasity` error (after the Critical audit log), or a panic
(`rand`'s empty-range panic / an out-of-bounds index). -/
inductive CreateOutcome where
  | panic
  | ok (code : String) (v : KeyVault)
  | full (v : KeyVault)
  deriving DecidableEq

/-- The exhaustive fallback of `create_key` (lines 96–108): scan the
Cartesian product in row-major order, insert and return the first pair not
in the active map; if none is free, log Critical and return `FullCapasity`. -/
def scan_phase (v : KeyVault) (now : Nat) : CreateOutcome :=
  match (all_pairs v).find? (fun key => !(key_active v key)) with
  | some key => CreateOutcome.ok (render key) (insert_entry v key now)
  | none => CreateOutcome.full v

/-- `KeyVault::create_key` (lines 76–118): up to `draws.length` random
attempts (100 in the source) — draw indices, look the words up, skip the
pair if active, otherwise insert it and return the rendered code; when
every attempt collides, fall through to the exhaustive scan. `now` is the
allocation timestamp taken inside the loop. -/
def create_key (v : KeyVault) (draws : List (Nat × Nat)) (now : Nat) :
    CreateOutcome :=
  match draws with
  | [] => scan_phase v now
  | r :: rest =>
    match random_idx v r with
    | none => CreateOutcome.panic
    | some (i, j) =>
      match v.prefix_words[i]?, v.suffix_words[j]? with
      | some p, some s =>
        if key_active v (p, s) then create_key v rest now
        else CreateOutcome.ok (render (p, s)) (insert_entry v (p, s) now)
      | _, _ => CreateOutcome.panic

/-- One pass of the reclaimer loop body in `spawn_vault_cleanup`
(lines 142–158): count the map, drop every entry whose `created_at` is not
strictly greater than `now - 3600`, and emit one Warning event carrying the
removed count when it is positive. `time.as_secs() - 3600` is `u64`
subtraction, modelled by `Nat` subtraction (they agree whenever
`3600 ≤ now`, i.e. at every real clock reading). -/
def cleanup_pass (v : KeyVault) (now : Nat) : KeyVault × List SysLogEvent :=
  let keys_before := v.active_keys.length
  let timeout_threshold := now - 3600
  let kept := v.active_keys.filter (fun e => decide (timeout_threshold < e.2))
  let removed_keys := keys_before - kept.length
  let events :=
    if 0 < removed_keys then
      [{ action := LogAction.Delete
         ceverity := LogCeverity.Warning
         function := "spawn_vault_cleanup"
         count := removed_keys }]
    else []
  ({ v with active_keys := kept }, events)

/-- The `ServerError` shapes produced by the release handlers in
`game/handlers.rs` (payloads dropped): `Api(BAD_REQUEST, "Key word in
invalid format")` for a malformed code. -/
inductive HandlerError where
  | ApiBadRequest
  deriving DecidableEq

/-- Rust's `str::split(" ")` on the character sequence: splits at every
space, keeping empty tokens between adjacent spaces and at the ends; the
empty string yields one empty token, exactly as in Rust. -/
def split_space : List Char → List (List Char)
  | [] => [[]]
  | c :: rest =>
    match split_space rest with
    | [] => [[]]
    | w :: ws => if c = ' ' then [] :: w :: ws else (c :: w) :: ws

/-- `key_word.split(" ").collect::<Vec<_>>()` as a list of `String`s. -/
def split_spaces (s : String) : List String :=
  (split_space s.data).map (fun cs => String.mk cs)

/-- The key-parsing step shared by `free_game_key` (lines 381–390) and
`persist_interactive_game` (lines 330–339): split the path string on the
space and take the first two tokens via `words.get(0)` / `words.get(1)`;
rejected only when one of them is absent. -/
def parse_key_word (key_word : String) : Option (String × String) :=
  let words := split_spaces key_word
  match words[0]?, words[1]? with
  | some p, some s => some (p, s)
  | _, _ => none

/-- `free_game_key` (lines 381–393) after auth: parse the path string,
reject with 400 before touching the vault when parsing fails, otherwise
call `remove_key` on the parsed tuple and return OK. -/
def free_game_key (v : KeyVault) (key_word : String) :
    Except HandlerError KeyVault :=
  match parse_key_word key_word with
  | some t => Except.ok (remove_key v t)
  | none => Except.error HandlerError.ApiBadRequest

/-- The keys currently in the active map. -/
def keys_of (v : KeyVault) : List (String × String) :=
  v.active_keys.map Prod.fst

/-- The shared `DashMap` of active keys, seen from concurrent handlers. -/
abbrev Registry := List ((String × String) × Nat)

/-- Local state of one request thread executing the body of one random
attempt of `create_key` (lines 82–93) for the pair it has drawn:
`passed_check` records that `key_active` returned false, `result` the
value returned to the caller once the insert has happened. -/
structure RaceThread where
  drawn_key : String × String
  now : Nat
  passed_check : Bool
  result : Option String
  deriving DecidableEq

/-- One atomic registry access by a thread in the random-attempt body: the
`contains_key` test (line 87) and the `insert` (line 92) are two separate
atomic `DashMap` operations with nothing held in between. A thread whose
check sees the pair active would redraw (`continue`); it simply makes no
progress here. -/
def race_step (reg : Registry) (t : RaceThread) : Registry × RaceThread :=
  if t.result.isSome then (reg, t)
  else if t.passed_check then
    ((t.drawn_key, t.now) :: reg.filter (fun e => decide (e.1 ≠ t.drawn_key)),
     { t with result := some (render t.drawn_key) })
  else if reg.any (fun e => decide (e.1 = t.drawn_key)) then
    (reg, t)
  else
    (reg, { t with passed_check := true })

/-- Interleaved execution of two threads over the shared registry; the
schedule says which thread performs the next atomic registry access
(`true` = first thread). -/
def race_run : Registry → RaceThread → RaceThread → List Bool →
    Registry × RaceThread × RaceThread
  | reg, a, b, [] => (reg, a, b)
  | reg, a, b, true :: rest =>
    let s := race_step reg a
    race_run s.1 s.2 b rest
  | reg, a, b, false :: rest =>
    let s := race_step reg b
    race_run s.1 a s.2 rest

/-- States on which the random phase can neither panic nor index out of
bounds; every vault produced by a successful `load_words` of two non-empty
lists of length `< 256` satisfies this. -/
def NoPanic (v : KeyVault) : Prop :=
  0 < v.word_count ∧ v.word_count ≤ v.prefix_words.length ∧
    v.word_count ≤ v.suffix_words.length

instance (v : KeyVault) : Decidable (NoPanic v) := by
  unfold NoPanic
  exact inferInstance

/-- A sequence of sequentially executed `create_key` calls, each with its
own draw sequence and timestamp; a panic aborts the run. -/
def run_creates (v : KeyVault) : List (List (Nat × Nat) × Nat) →
    List CreateOutcome × KeyVault
  | [] => ([], v)
  | (draws, now) :: rest =>
    match create_key v draws now with
    | CreateOutcome.panic => ([CreateOutcome.panic], v)
    | CreateOutcome.ok c v' =>
      let out := run_creates v' rest
      (CreateOutcome.ok c v' :: out.1, out.2)
    | CreateOutcome.full v' =>
      let out := run_creates v' rest
      (CreateOutcome.full v' :: out.1, out.2)

/-- The code returned by a successful outcome. -/
def ok_code : CreateOutcome → Option String
  | CreateOutcome.ok c _ => some c
  | _ => none

/-- The codes returned by the successful calls of a run. -/
def codes_of (outs : List CreateOutcome) : List String :=
  outs.filterMap ok_code

/-- Whether an outcome is a success (decidably, for concrete witnesses). -/
def is_ok : CreateOutcome → Bool
  | CreateOutcome.ok _ _ => true
  | _ => false

/-- The `§8` scenario vault: vocabularies `["Red","Blue"]` / `["Fox","Owl"]`
as produced by `load_words`. -/
def vault_RBFO : KeyVault :=
  { word_count := 2
    active_keys := []
    prefix_words := ["Red", "Blue"]
    suffix_words := ["Fox", "Owl"] }

/-- A release string of three tokens. -/
def three_token_code : String := "a b c"

/-- A release string of one token. -/
def one_token_code : String := "RedFox"

/-- The vault produced by loading two empty word lists. -/
def empty_vault : KeyVault :=
  { word_count := 0
    active_keys := []
    prefix_words := []
    suffix_words := [] }

/-- The vault produced by loading two 256-word lists: the `u8` cast wraps
`word_count` to `0`. -/
def v256 : KeyVault :=
  { word_count := 0
    active_keys := []
    prefix_words := List.replicate 256 "w"
    suffix_words := List.replicate 256 "w" }

/-- The vault produced by loading two 300-word lists: the `u8` cast stores
`300 % 256 = 44`. -/
def v300 : KeyVault :=
  { word_count := 44
    active_keys := []
    prefix_words := List.replicate 300 "a"
    suffix_words := List.replicate 300 "b" }

/-! ## Basic lemmas about the registry operations -/

theorem key_active_iff (v : KeyVault) (k : String × String) :
    key_active v k = true ↔ k ∈ keys_of v := by
  simp [key_active, keys_of, List.any_eq_true, List.mem_map]

theorem key_active_eq_false_iff (v : KeyVault) (k : String × String) :
    key_active v k = false ↔ k ∉ keys_of v := by
  rw [← key_active_iff]
  cases key_active v k <;> simp

@[simp]
theorem insert_entry_prefix_words (v : KeyVault) (k : String × String)
    (t : Nat) : (insert_entry v k t).prefix_words = v.prefix_words := rfl

@[simp]
theorem insert_entry_suffix_words (v : KeyVault) (k : String × String)
    (t : Nat) : (insert_entry v k t).suffix_words = v.suffix_words := rfl

@[simp]
theorem insert_entry_word_count (v : KeyVault) (k : String × String)
    (t : Nat) : (insert_entry v k t).word_count = v.word_count := rfl

@[simp]
theorem remove_key_prefix_words (v : KeyVault) (k : String × String) :
    (remove_key v k).prefix_words = v.prefix_words := rfl

@[simp]
theorem remove_key_suffix_words (v : KeyVault) (k : String × String) :
    (remove_key v k).suffix_words = v.suffix_words := rfl

@[simp]
theorem remove_key_word_count (v : KeyVault) (k : String × String) :
    (remove_key v k).word_count = v.word_count := rfl

/-- Inserting a key that is not in the map is a plain cons. -/
theorem insert_entry_of_not_active (v : KeyVault) (k : String × String)
    (t : Nat) (h : key_active v k = false) :
    (insert_entry v k t).active_keys = (k, t) :: v.active_keys := by
  have hmem := (key_active_eq_false_iff v k).mp h
  simp only [insert_entry]
  congr 1
  apply List.filter_eq_self.mpr
  intro e he
  rcases e with ⟨ek, et⟩
  simp only [decide_eq_true_eq]
  intro hek
  exact hmem (by simpa [keys_of, hek] using List.mem_map_of_mem Prod.fst he)

@[simp]
theorem all_pairs_insert (v : KeyVault) (k : String × String) (t : Nat) :
    all_pairs (insert_entry v k t) = all_pairs v := rfl

theorem mem_all_pairs (v : KeyVault) (k : String × String) :
    k ∈ all_pairs v ↔ k.1 ∈ v.prefix_words ∧ k.2 ∈ v.suffix_words := by
  rcases k with ⟨a, b⟩
  simp [all_pairs, List.mem_flatMap, List.mem_map]

/-! ## Characterisation of `create_key` -/


theorem random_idx_of_pos (v : KeyVault) (r : Nat × Nat)
    (h : 0 < v.word_count) :
    random_idx v r = some (r.1 % v.word_count, r.2 % v.word_count) := by
  simp [random_idx, random_range, Nat.pos_iff_ne_zero.mp h]

/-- A successful `create_key` returns the rendering of a pair of the
Cartesian product that was not active when it was examined, and the new
state is exactly the old one with that pair inserted at the timestamp. -/
theorem create_key_ok (v : KeyVault) (draws : List (Nat × Nat)) (now : Nat)
    (c : String) (v' : KeyVault)
    (h : create_key v draws now = CreateOutcome.ok c v') :
    ∃ k, k ∈ all_pairs v ∧ key_active v k = false ∧ c = render k ∧
      v' = insert_entry v k now := by
  induction draws with
  | nil =>
    simp only [create_key, scan_phase] at h
    cases hf : (all_pairs v).find? (fun key => !(key_active v key)) with
    | none => rw [hf] at h; cases h
    | some k =>
      rw [hf] at h
      cases h
      refine ⟨k, List.mem_of_find?_eq_some hf, ?_, rfl, rfl⟩
      have hk := List.find?_some hf
      simpa using hk
  | cons r rest ih =>
    simp only [create_key] at h
    cases hri : random_idx v r with
    | none => rw [hri] at h; cases h
    | some ij =>
      rw [hri] at h
      obtain ⟨i, j⟩ := ij
      cases hp : v.prefix_words[i]? with
      | none => simp only [hp] at h; cases h
      | some p =>
        cases hs : v.suffix_words[j]? with
        | none => simp only [hp, hs] at h; cases h
        | some s =>
          simp only [hp, hs] at h
          cases hact : key_active v (p, s) with
          | true => rw [hact] at h; simp only [if_true] at h; exact ih h
          | false =>
            rw [hact] at h
            simp only [Bool.false_eq_true, if_false] at h
            cases h
            refine ⟨(p, s), ?_, hact, rfl, rfl⟩
            rw [mem_all_pairs]
            exact ⟨List.getElem?_mem hp, List.getElem?_mem hs⟩

/-- `create_key` returns `FullCapasity` only with the state unchanged and
only when every pair of the Cartesian product is active. -/
theorem create_key_full (v : KeyVault) (draws : List (Nat × Nat)) (now : Nat)
    (v' : KeyVault) (h : create_key v draws now = CreateOutcome.full v') :
    v' = v ∧ ∀ k ∈ all_pairs v, key_active v k = true := by
  induction draws with
  | nil =>
    simp only [create_key, scan_phase] at h
    cases hf : (all_pairs v).find? (fun key => !(key_active v key)) with
    | none =>
      rw [hf] at h
      cases h
      refine ⟨rfl, fun k hk => ?_⟩
      have := List.find?_eq_none.mp hf k hk
      simpa using this
    | some k => rw [hf] at h; cases h
  | cons r rest ih =>
    simp only [create_key] at h
    cases hri : random_idx v r with
    | none => rw [hri] at h; cases h
    | some ij =>
      rw [hri] at h
      obtain ⟨i, j⟩ := ij
      cases hp : v.prefix_words[i]? with
      | none => simp only [hp] at h; cases h
      | some p =>
        cases hs : v.suffix_words[j]? with
        | none => simp only [hp, hs] at h; cases h
        | some s =>
          simp only [hp, hs] at h
          cases hact : key_active v (p, s) with
          | true => rw [hact] at h; simp only [if_true] at h; exact ih h
          | false =>
            rw [hact] at h
            simp only [Bool.false_eq_true, if_false] at h
            cases h

/-- Under `NoPanic`, `create_key` never panics. -/
theorem create_key_ne_panic (v : KeyVault) (draws : List (Nat × Nat))
    (now : Nat) (hnp : NoPanic v) :
    create_key v draws now ≠ CreateOutcome.panic := by
  obtain ⟨hpos, hple, hsle⟩ := hnp
  induction draws with
  | nil =>
    simp only [create_key, scan_phase]
    cases hf : (all_pairs v).find? (fun key => !(key_active v key)) <;> simp
  | cons r rest ih =>
    simp only [create_key, random_idx_of_pos v r hpos]
    have hi : r.1 % v.word_count < v.prefix_words.length :=
      lt_of_lt_of_le (Nat.mod_lt _ hpos) hple
    have hj : r.2 % v.word_count < v.suffix_words.length :=
      lt_of_lt_of_le (Nat.mod_lt _ hpos) hsle
    rw [List.getElem?_eq_getElem hi, List.getElem?_eq_getElem hj]
    cases hact : key_active v
        (v.prefix_words[r.1 % v.word_count], v.suffix_words[r.2 % v.word_count]) with
    | true => simpa [hact] using ih
    | false => simp [hact]

/-- Under `NoPanic`, `create_key` either succeeds or reports exhaustion
with the state unchanged. -/
theorem create_key_ok_or_full (v : KeyVault) (draws : List (Nat × Nat))
    (now : Nat) (hnp : NoPanic v) :
    (∃ c v', create_key v draws now = CreateOutcome.ok c v') ∨
      create_key v draws now = CreateOutcome.full v := by
  cases h : create_key v draws now with
  | panic => exact absurd h (create_key_ne_panic v draws now hnp)
  | ok c v' => exact Or.inl ⟨c, v', rfl⟩
  | full v' =>
    have h1 := (create_key_full v draws now v' h).1
    exact Or.inr (by rw [h1])

/-- Liveness of the exhaustive fallback: while some pair of the product is
free, `create_key` succeeds (for every draw sequence and timestamp). -/
theorem create_key_ok_of_free (v : KeyVault) (draws : List (Nat × Nat))
    (now : Nat) (hnp : NoPanic v)
    (hfree : ∃ k ∈ all_pairs v, key_active v k = false) :
    ∃ c v', create_key v draws now = CreateOutcome.ok c v' := by
  rcases create_key_ok_or_full v draws now hnp with h | h
  · exact h
  · obtain ⟨k, hk, hkf⟩ := hfree
    have := (create_key_full v draws now v h).2 k hk
    rw [this] at hkf
    cases hkf

/-- When every pair of the product is active, `create_key` reports
`FullCapasity` (for every draw sequence and timestamp). -/
theorem create_key_full_of_all_active (v : KeyVault)
    (draws : List (Nat × Nat)) (now : Nat) (hnp : NoPanic v)
    (hall : ∀ k ∈ all_pairs v, key_active v k = true) :
    create_key v draws now = CreateOutcome.full v := by
  rcases create_key_ok_or_full v draws now hnp with ⟨c, v', h⟩ | h
  · obtain ⟨k, hk, hkf, -, -⟩ := create_key_ok v draws now c v' h
    rw [hall k hk] at hkf
    cases hkf
  · exact h

/-! ## Sequential runs of `create_key` -/



theorem all_pairs_eq_product (v : KeyVault) :
    all_pairs v = v.prefix_words ×ˢ v.suffix_words := rfl

theorem keys_of_insert (v : KeyVault) (k : String × String) (t : Nat)
    (h : key_active v k = false) :
    keys_of (insert_entry v k t) = k :: keys_of v := by
  simp only [keys_of, insert_entry_of_not_active v k t h, List.map_cons]

theorem noPanic_insert (v : KeyVault) (k : String × String) (t : Nat)
    (h : NoPanic v) : NoPanic (insert_entry v k t) := h

/-- Core invariant of a sequential run in which every call succeeds: the
calls created a duplicate-free list `ks` of pairs of the product, none of
which was active at the start, the final active map is the initial one
extended by exactly these pairs, and the returned codes are their
renderings (in order of allocation). -/
theorem run_creates_spec (calls : List (List (Nat × Nat) × Nat)) :
    ∀ v : KeyVault,
    (∀ o ∈ (run_creates v calls).1, ∃ c w, o = CreateOutcome.ok c w) →
    ∃ ks : List (String × String),
      ks.length = calls.length ∧
      (∀ k ∈ ks, k ∈ all_pairs v) ∧
      ks.Nodup ∧
      (∀ k ∈ ks, k ∉ keys_of v) ∧
      keys_of (run_creates v calls).2 = ks.reverse ++ keys_of v ∧
      (run_creates v calls).2.prefix_words = v.prefix_words ∧
      (run_creates v calls).2.suffix_words = v.suffix_words ∧
      (run_creates v calls).2.word_count = v.word_count ∧
      codes_of (run_creates v calls).1 = ks.map render := by
  induction calls with
  | nil =>
    intro v _
    exact ⟨[], rfl, by simp, List.nodup_nil, by simp, by simp [run_creates],
      rfl, rfl, rfl, rfl⟩
  | cons call rest ih =>
    intro v hok
    obtain ⟨draws, now⟩ := call
    cases hc : create_key v draws now with
    | panic =>
      exfalso
      have := hok CreateOutcome.panic (by simp [run_creates, hc])
      obtain ⟨c, w, hw⟩ := this
      cases hw
    | full v' =>
      exfalso
      have := hok (CreateOutcome.full v') (by simp [run_creates, hc])
      obtain ⟨c, w, hw⟩ := this
      cases hw
    | ok c v' =>
      have hrun : run_creates v (⟨draws, now⟩ :: rest) =
          ((CreateOutcome.ok c v') :: (run_creates v' rest).1,
            (run_creates v' rest).2) := by
        simp [run_creates, hc]
      obtain ⟨k, hkmem, hkfree, hcode, hv'⟩ := create_key_ok v draws now c v' hc
      have hok' : ∀ o ∈ (run_creates v' rest).1, ∃ c w, o = CreateOutcome.ok c w := by
        intro o ho
        exact hok o (by rw [hrun]; exact List.mem_cons_of_mem _ ho)
      obtain ⟨ks, hlen, hmem, hnd, hfresh, hkeys, hpw, hsw, hwc, hcodes⟩ :=
        ih v' hok'
      have hkeys_v' : keys_of v' = k :: keys_of v := by
        rw [hv']
        exact keys_of_insert v k now hkfree
      have hpairs_v' : all_pairs v' = all_pairs v := by rw [hv']; rfl
      refine ⟨k :: ks, by simp [hlen], ?_, ?_, ?_, ?_, ?_, ?_, ?_, ?_⟩
      · intro x hx
        rcases List.mem_cons.mp hx with hx | hx
        · exact hx ▸ hkmem
        · exact hpairs_v' ▸ hmem x hx
      · refine List.nodup_cons.mpr ⟨?_, hnd⟩
        intro hkks
        exact hfresh k hkks (by rw [hkeys_v']; exact List.mem_cons_self _ _)
      · intro x hx
        rcases List.mem_cons.mp hx with hx | hx
        · rw [hx, ← key_active_eq_false_iff]
          exact hkfree
        · intro hxv
          exact hfresh x hx (by rw [hkeys_v']; exact List.mem_cons_of_mem _ hxv)
      · rw [hrun]
        simpa [hkeys_v'] using hkeys
      · rw [hrun]
        simpa [hv'] using hpw
      · rw [hrun]
        simpa [hv'] using hsw
      · rw [hrun]
        simpa [hv'] using hwc
      · rw [hrun]
        simp only [codes_of, List.filterMap_cons, ok_code]
        rw [← codes_of, hcodes, hcode]
        simp


theorem is_ok_iff (o : CreateOutcome) :
    is_ok o = true ↔ ∃ c w, o = CreateOutcome.ok c w := by
  cases o <;> simp [is_ok]


theorem all_pairs_nodup (v : KeyVault) (hp : v.prefix_words.Nodup)
    (hs : v.suffix_words.Nodup) : (all_pairs v).Nodup := by
  rw [all_pairs_eq_product]
  exact hp.product hs

theorem all_pairs_length (v : KeyVault) :
    (all_pairs v).length = v.prefix_words.length * v.suffix_words.length := by
  rw [all_pairs_eq_product]
  exact List.length_product _ _

/-- If no pair of the product is free, the product injects into the active
keys; with duplicate-free vocabularies this bounds its length. -/
theorem exists_free_of_card_lt (v : KeyVault)
    (hpnd : (all_pairs v).Nodup)
    (hlt : (keys_of v).length < (all_pairs v).length) :
    ∃ k ∈ all_pairs v, key_active v k = false := by
  by_contra hall
  push_neg at hall
  have hsub2 : all_pairs v ⊆ keys_of v := by
    intro k hk
    have h1 := hall k hk
    rw [← key_active_iff]
    cases h2 : key_active v k with
    | true => rfl
    | false => exact absurd h2 h1
  have := (hpnd.subperm hsub2).length_le
  omega

/-- While the number of active keys plus the number of remaining calls does
not exceed the duplicate-free capacity, every sequential call succeeds. -/
theorem run_creates_all_ok (calls : List (List (Nat × Nat) × Nat)) :
    ∀ v : KeyVault, NoPanic v →
    (∀ k ∈ keys_of v, k ∈ all_pairs v) → (keys_of v).Nodup →
    (all_pairs v).Nodup →
    (keys_of v).length + calls.length ≤ (all_pairs v).length →
    ∀ o ∈ (run_creates v calls).1, ∃ c w, o = CreateOutcome.ok c w := by
  induction calls with
  | nil =>
    intro v _ _ _ _ _ o ho
    simp [run_creates] at ho
  | cons call rest ih =>
    intro v hnp hsub hnd hpnd hlen o ho
    obtain ⟨draws, now⟩ := call
    have hlt : (keys_of v).length < (all_pairs v).length := by
      simp only [List.length_cons] at hlen
      omega
    obtain ⟨c, v', hc⟩ := create_key_ok_of_free v draws now hnp
      (exists_free_of_card_lt v hpnd hlt)
    obtain ⟨k, hkmem, hkfree, -, hv'⟩ := create_key_ok v draws now c v' hc
    have hkeys_v' : keys_of v' = k :: keys_of v := by
      rw [hv']
      exact keys_of_insert v k now hkfree
    have hpairs_v' : all_pairs v' = all_pairs v := by rw [hv']; rfl
    simp only [run_creates, hc] at ho
    rcases List.mem_cons.mp ho with rfl | ho
    · exact ⟨c, v', rfl⟩
    · refine ih v' (hv' ▸ hnp) ?_ ?_ ?_ ?_ o ho
      · intro x hx
        rw [hpairs_v']
        rw [hkeys_v'] at hx
        rcases List.mem_cons.mp hx with rfl | hx
        · exact hkmem
        · exact hsub x hx
      · rw [hkeys_v']
        refine List.nodup_cons.mpr ⟨?_, hnd⟩
        exact (key_active_eq_false_iff v k).mp hkfree
      · rw [hpairs_v']
        exact hpnd
      · rw [hpairs_v', hkeys_v']
        simp only [List.length_cons]
        simp only [List.length_cons] at hlen
        omega


/-! ## Claim theorems -/

/-- **C2**: for every sequence of sequentially executed successful
`create()` calls with no intervening release or reclamation, all returned
code strings are pairwise distinct; each successful call returns a
(prefix, suffix) pair that was not in the active set at the time of the
call and inserts it before returning. (The spec's §3 data-model assumption
that two different pairs never render identically is the `hinj`
hypothesis.) -/
theorem claim_C2_sequential_create_uniqueness
    (v : KeyVault) (calls : List (List (Nat × Nat) × Nat))
    (hinj : ∀ k1 ∈ all_pairs v, ∀ k2 ∈ all_pairs v,
      render k1 = render k2 → k1 = k2)
    (hok : ∀ o ∈ (run_creates v calls).1, is_ok o = true) :
    (codes_of (run_creates v calls).1).Nodup ∧
    (∀ (v1 : KeyVault) (draws : List (Nat × Nat)) (now : Nat) (c : String)
        (v2 : KeyVault), create_key v1 draws now = CreateOutcome.ok c v2 →
      ∃ k, c = render k ∧ key_active v1 k = false ∧
        keys_of v2 = k :: keys_of v1) := by
  constructor
  · obtain ⟨ks, -, hmem, hnd, -, -, -, -, -, hcodes⟩ :=
      run_creates_spec calls v (fun o ho => (is_ok_iff o).mp (hok o ho))
    rw [hcodes]
    exact hnd.map_on fun x hx y hy hxy => hinj x (hmem x hx) y (hmem y hy) hxy
  · intro v1 draws now c v2 hc
    obtain ⟨k, -, hkfree, hcode, hv2⟩ := create_key_ok v1 draws now c v2 hc
    exact ⟨k, hcode, hkfree,
      by rw [hv2]; exact keys_of_insert v1 k now hkfree⟩

/-- Witness for C2: two sequential calls on the §8 vault return the
distinct codes `"Red Fox"` and `"Blue Owl"`. -/
theorem claim_C2_witness :
    (codes_of (run_creates vault_RBFO [([], 0), ([(1, 1)], 1)]).1).Nodup ∧
    (∀ (v1 : KeyVault) (draws : List (Nat × Nat)) (now : Nat) (c : String)
        (v2 : KeyVault), create_key v1 draws now = CreateOutcome.ok c v2 →
      ∃ k, c = render k ∧ key_active v1 k = false ∧
        keys_of v2 = k :: keys_of v1) :=
  claim_C2_sequential_create_uniqueness vault_RBFO [([], 0), ([(1, 1)], 1)]
    (by decide) (by decide)

/-- **C3**: from an empty active set with duplicate-free vocabularies of
sizes `p` and `s`, any `p × s` create calls all succeed, the next call
returns `FullCapasity`, and `create_key` never returns `FullCapasity`
while some pair of the product is free (the exhaustive row-major fallback
scan visits every pair). -/
theorem claim_C3_exhaustion_boundary
    (v : KeyVault) (calls : List (List (Nat × Nat) × Nat))
    (draws : List (Nat × Nat)) (now : Nat)
    (hempty : v.active_keys = [])
    (hpnd : v.prefix_words.Nodup) (hsnd : v.suffix_words.Nodup)
    (hnp : NoPanic v)
    (hcalls : calls.length = v.prefix_words.length * v.suffix_words.length) :
    (∀ o ∈ (run_creates v calls).1, is_ok o = true) ∧
    create_key (run_creates v calls).2 draws now =
      CreateOutcome.full (run_creates v calls).2 ∧
    (∀ (w w' : KeyVault) (d : List (Nat × Nat)) (t : Nat),
      create_key w d t = CreateOutcome.full w' →
      ∀ k ∈ all_pairs w, key_active w k = true) := by
  have hkeys0 : keys_of v = [] := by simp [keys_of, hempty]
  have hapnd := all_pairs_nodup v hpnd hsnd
  have hall_ok := run_creates_all_ok calls v hnp
    (by simp [hkeys0]) (by simp [hkeys0]) hapnd
    (by rw [hkeys0, all_pairs_length]; simpa using hcalls.le)
  obtain ⟨ks, hlen, hmem, hnd, -, hkeys, hpw, hsw, hwc, -⟩ :=
    run_creates_spec calls v hall_ok
  refine ⟨fun o ho => (is_ok_iff o).mpr (hall_ok o ho), ?_, ?_⟩
  · have hnpf : NoPanic (run_creates v calls).2 := by
      obtain ⟨h1, h2, h3⟩ := hnp
      exact ⟨hwc ▸ h1, by rw [hwc, hpw]; exact h2, by rw [hwc, hsw]; exact h3⟩
    have hpairsf : all_pairs (run_creates v calls).2 = all_pairs v := by
      simp [all_pairs, hpw, hsw]
    have hperm : ks.Perm (all_pairs v) := by
      refine (hnd.subperm fun x hx => hmem x hx).perm_of_length_le ?_
      rw [hlen, hcalls, ← all_pairs_length]
    refine create_key_full_of_all_active _ draws now hnpf ?_
    intro k hk
    rw [key_active_iff, hkeys, hkeys0]
    rw [hpairsf] at hk
    simpa using hperm.mem_iff.mpr hk
  · intro w w' d t h k hk
    exact (create_key_full w d t w' h).2 k hk

/-- Witness for C3: on the §8 vault (capacity 4), four calls succeed and
the fifth returns `FullCapasity`. -/
theorem claim_C3_witness :
    (∀ o ∈ (run_creates vault_RBFO
        [([], 0), ([], 1), ([], 2), ([], 3)]).1, is_ok o = true) ∧
    create_key (run_creates vault_RBFO
        [([], 0), ([], 1), ([], 2), ([], 3)]).2 [] 9 =
      CreateOutcome.full (run_creates vault_RBFO
        [([], 0), ([], 1), ([], 2), ([], 3)]).2 ∧
    (∀ (w w' : KeyVault) (d : List (Nat × Nat)) (t : Nat),
      create_key w d t = CreateOutcome.full w' →
      ∀ k ∈ all_pairs w, key_active w k = true) :=
  claim_C3_exhaustion_boundary vault_RBFO [([], 0), ([], 1), ([], 2), ([], 3)]
    [] 9 rfl (by decide) (by decide) (by decide) (by decide)

/-- **C5**: a single Reclaimer pass at time `now` removes from the active
map exactly the entries allocated one hour (TTL 3600 s) or more before
`now`, keeps every younger entry, and emits exactly one Warning audit
event carrying the removed count iff that count is non-zero. (`3600 ≤ now`
rules out the pre-epoch clock readings where the `u64` subtraction
`time.as_secs() - 3600` would wrap.) -/
theorem claim_C5_reclaimer_pass (v : KeyVault) (now : Nat)
    (hnow : 3600 ≤ now) :
    (cleanup_pass v now).1.active_keys =
      v.active_keys.filter (fun e => decide (now < e.2 + 3600)) ∧
    (∀ e ∈ v.active_keys,
      (e ∈ (cleanup_pass v now).1.active_keys ↔ now < e.2 + 3600)) ∧
    (cleanup_pass v now).2 =
      (if v.active_keys.countP (fun e => decide (e.2 + 3600 ≤ now)) = 0 then
        ([] : List SysLogEvent)
       else
        [{ action := LogAction.Delete
           ceverity := LogCeverity.Warning
           function := "spawn_vault_cleanup"
           count := v.active_keys.countP
             (fun e => decide (e.2 + 3600 ≤ now)) }]) := by
  have hfil : v.active_keys.filter (fun e => decide (now - 3600 < e.2)) =
      v.active_keys.filter (fun e => decide (now < e.2 + 3600)) :=
    List.filter_congr fun e _ => by
      rw [decide_eq_decide]
      omega
  have hact : (cleanup_pass v now).1.active_keys =
      v.active_keys.filter (fun e => decide (now - 3600 < e.2)) := rfl
  have hcount : v.active_keys.length -
      (v.active_keys.filter (fun e => decide (now - 3600 < e.2))).length =
      v.active_keys.countP (fun e => decide (e.2 + 3600 ≤ now)) := by
    induction v.active_keys with
    | nil => rfl
    | cons e rest ih =>
      have hle := List.length_filter_le
        (fun x : (String × String) × Nat => decide (now - 3600 < x.2)) rest
      by_cases h : now - 3600 < e.2
      · rw [List.filter_cons_of_pos (by simp only [decide_eq_true_eq]; omega),
          List.countP_cons_of_neg _ _ (by simp only [decide_eq_true_eq]; omega)]
        simpa [Nat.succ_sub_succ] using ih
      · rw [List.filter_cons_of_neg (by simp only [decide_eq_true_eq]; omega),
          List.countP_cons_of_pos _ _ (by simp only [decide_eq_true_eq]; omega)]
        simp only [List.length_cons]
        omega
  refine ⟨hact.trans hfil, ?_, ?_⟩
  · intro e he
    rw [hact.trans hfil]
    simp [List.mem_filter, he]
  · have hev : (cleanup_pass v now).2 =
        (if 0 < v.active_keys.length -
            (v.active_keys.filter
              (fun e => decide (now - 3600 < e.2))).length then
          [{ action := LogAction.Delete
             ceverity := LogCeverity.Warning
             function := "spawn_vault_cleanup"
             count := v.active_keys.length -
               (v.active_keys.filter
                 (fun e => decide (now - 3600 < e.2))).length }]
         else ([] : List SysLogEvent)) := rfl
    rw [hev, hcount]
    rcases Nat.eq_zero_or_pos
        (v.active_keys.countP (fun e => decide (e.2 + 3600 ≤ now))) with h0 | h0
    · simp [h0]
    · rw [if_pos h0, if_neg (by omega)]

/-- Witness for C5: at `now = 7200` an entry allocated at `10` is reclaimed
and an entry allocated at `4000` is kept, with one Warning event of
count 1. -/
theorem claim_C5_witness :
    3600 ≤ 7200 ∧
    ((cleanup_pass { vault_RBFO with
        active_keys := [(("Red", "Fox"), 10), (("Blue", "Owl"), 4000)] }
        7200).1.active_keys =
      [(("Red", "Fox"), 10), (("Blue", "Owl"), 4000)].filter
        (fun e => decide (7200 < e.2 + 3600)) ∧
    (∀ e ∈ [(("Red", "Fox"), 10), (("Blue", "Owl"), 4000)],
      (e ∈ (cleanup_pass { vault_RBFO with
          active_keys := [(("Red", "Fox"), 10), (("Blue", "Owl"), 4000)] }
          7200).1.active_keys ↔ 7200 < e.2 + 3600)) ∧
    (cleanup_pass { vault_RBFO with
        active_keys := [(("Red", "Fox"), 10), (("Blue", "Owl"), 4000)] }
        7200).2 =
      (if [(("Red", "Fox"), 10), (("Blue", "Owl"), 4000)].countP
          (fun e => decide (e.2 + 3600 ≤ 7200)) = 0 then
        ([] : List SysLogEvent)
       else
        [{ action := LogAction.Delete
           ceverity := LogCeverity.Warning
           function := "spawn_vault_cleanup"
           count := [(("Red", "Fox"), 10), (("Blue", "Owl"), 4000)].countP
             (fun e => decide (e.2 + 3600 ≤ 7200)) }])) :=
  ⟨by omega,
    claim_C5_reclaimer_pass
      { vault_RBFO with
        active_keys := [(("Red", "Fox"), 10), (("Blue", "Owl"), 4000)] }
      7200 (by omega)⟩

/-- Splitting a list into the entries kept and dropped by `remove_key`'s
filter: the key `k` accounts for `countP (·.1 = k)` entries. -/
theorem length_filter_ne_add_countP (k : String × String) :
    ∀ l : List ((String × String) × Nat),
      (l.filter (fun e => decide (e.1 ≠ k))).length +
        l.countP (fun e => decide (e.1 = k)) = l.length := by
  intro l
  induction l with
  | nil => rfl
  | cons e rest ih =>
    by_cases h : e.1 = k
    · rw [List.filter_cons_of_neg (by simp [h]),
        List.countP_cons_of_pos _ _ (by simp [h])]
      simp only [List.length_cons]
      omega
    · rw [List.filter_cons_of_pos (by simp [h]),
        List.countP_cons_of_neg _ _ (by simp [h])]
      simp only [List.length_cons]
      omega

/-- With duplicate-free keys (the `DashMap` invariant), at most one entry
matches any given key. -/
theorem countP_key_le_one (v : KeyVault) (k : String × String)
    (hnd : (keys_of v).Nodup) :
    v.active_keys.countP (fun e => decide (e.1 = k)) ≤ 1 := by
  have main : ∀ l : List ((String × String) × Nat), (l.map Prod.fst).Nodup →
      l.countP (fun e => decide (e.1 = k)) ≤ 1 := by
    intro l
    induction l with
    | nil => intro _; simp
    | cons e rest ih =>
      intro hh
      rw [List.map_cons, List.nodup_cons] at hh
      obtain ⟨hnotin, hnd'⟩ := hh
      by_cases h : e.1 = k
      · rw [List.countP_cons_of_pos _ _ (by simp [h])]
        have hz : rest.countP (fun e => decide (e.1 = k)) = 0 := by
          rw [List.countP_eq_zero]
          intro a ha
          simp only [decide_eq_true_eq]
          intro hak
          exact hnotin (by rw [h, ← hak]; exact List.mem_map_of_mem Prod.fst ha)
        omega
      · rw [List.countP_cons_of_neg _ _ (by simp [h])]
        exact ih hnd'
  exact main v.active_keys hnd

/-- If a key is in the map, at least one entry matches it. -/
theorem one_le_countP_key (v : KeyVault) (k : String × String)
    (hact : key_active v k = true) :
    1 ≤ v.active_keys.countP (fun e => decide (e.1 = k)) := by
  rw [key_active, List.any_eq_true] at hact
  obtain ⟨e, he, hek⟩ := hact
  exact List.countP_pos_iff.mpr ⟨e, he, hek⟩

/-- **C8**: release is idempotent — removing a key twice in a row leaves
the same state as removing it once, removing an absent key is a no-op
(`remove_key` is total and never errors), and under the `DashMap`
invariant (at most one entry per key, `hnd`) a double release shrinks the
active map by at most one entry. -/
theorem claim_C8_idempotent_release (v : KeyVault) (k : String × String)
    (hnd : (keys_of v).Nodup) :
    remove_key (remove_key v k) k = remove_key v k ∧
    (key_active v k = false → remove_key v k = v) ∧
    v.active_keys.length ≤
      (remove_key (remove_key v k) k).active_keys.length + 1 := by
  have hidem : remove_key (remove_key v k) k = remove_key v k := by
    simp only [remove_key]
    congr 1
    exact List.filter_eq_self.mpr fun a ha => (List.mem_filter.mp ha).2
  refine ⟨hidem, ?_, ?_⟩
  · intro hfree
    have hmem := (key_active_eq_false_iff v k).mp hfree
    have hfil : v.active_keys.filter (fun e => decide (e.1 ≠ k)) =
        v.active_keys := by
      refine List.filter_eq_self.mpr fun e he => ?_
      simp only [decide_eq_true_eq]
      intro hek
      exact hmem (by rw [← hek]; exact List.mem_map_of_mem Prod.fst he)
    show ({ v with
      active_keys :=
        v.active_keys.filter (fun e => decide (e.1 ≠ k)) } : KeyVault) = v
    rw [hfil]
  · rw [hidem]
    have h1 := length_filter_ne_add_countP k v.active_keys
    have h2 := countP_key_le_one v k hnd
    simp only [remove_key]
    omega

/-- Witness for C8 on a vault holding the single active key
`("Red", "Fox")`. -/
theorem claim_C8_witness :
    ((keys_of { vault_RBFO with
        active_keys := [(("Red", "Fox"), 42)] }).Nodup) ∧
    (remove_key (remove_key { vault_RBFO with
        active_keys := [(("Red", "Fox"), 42)] } ("Red", "Fox"))
        ("Red", "Fox") =
      remove_key { vault_RBFO with
        active_keys := [(("Red", "Fox"), 42)] } ("Red", "Fox") ∧
    (key_active { vault_RBFO with
        active_keys := [(("Red", "Fox"), 42)] } ("Red", "Fox") = false →
      remove_key { vault_RBFO with
        active_keys := [(("Red", "Fox"), 42)] } ("Red", "Fox") =
        { vault_RBFO with active_keys := [(("Red", "Fox"), 42)] }) ∧
    ({ vault_RBFO with
        active_keys :=
          [(("Red", "Fox"), 42)] } : KeyVault).active_keys.length ≤
      (remove_key (remove_key { vault_RBFO with
          active_keys := [(("Red", "Fox"), 42)] } ("Red", "Fox"))
          ("Red", "Fox")).active_keys.length + 1) :=
  ⟨by decide,
    claim_C8_idempotent_release
      { vault_RBFO with active_keys := [(("Red", "Fox"), 42)] }
      ("Red", "Fox") (by decide)⟩

/-- **C9**: releasing an active key `k` removes exactly `k` — the map
shrinks by exactly one entry, every other entry is kept, `k` is no longer
active — a subsequent `create()` succeeds for every draw sequence, and for
some draw sequence it returns `k` itself. -/
theorem claim_C9_release_then_create (v : KeyVault) (k : String × String)
    (hnd : (keys_of v).Nodup) (hact : key_active v k = true)
    (hnp : NoPanic v) (hk : k ∈ all_pairs v)
    (hwcp : v.word_count = v.prefix_words.length)
    (hwcs : v.word_count = v.suffix_words.length) :
    ((remove_key v k).active_keys.length + 1 = v.active_keys.length ∧
      key_active (remove_key v k) k = false ∧
      (∀ e ∈ v.active_keys, e.1 ≠ k → e ∈ (remove_key v k).active_keys) ∧
      (∀ e ∈ (remove_key v k).active_keys, e ∈ v.active_keys ∧ e.1 ≠ k)) ∧
    (∀ (draws : List (Nat × Nat)) (now : Nat),
      ∃ c v', create_key (remove_key v k) draws now = CreateOutcome.ok c v') ∧
    (∃ (draws : List (Nat × Nat)) (now : Nat) (v' : KeyVault),
      create_key (remove_key v k) draws now =
        CreateOutcome.ok (render k) v') := by
  have hkfree : key_active (remove_key v k) k = false := by
    rw [key_active_eq_false_iff]
    intro hmem
    rw [keys_of, remove_key] at hmem
    obtain ⟨e, he, hek⟩ := List.mem_map.mp hmem
    have := (List.mem_filter.mp he).2
    rw [hek] at this
    simp at this
  have hpairs : all_pairs (remove_key v k) = all_pairs v := rfl
  refine ⟨⟨?_, hkfree, ?_, ?_⟩, ?_, ?_⟩
  · have h1 := length_filter_ne_add_countP k v.active_keys
    have h2 := countP_key_le_one v k hnd
    have h3 := one_le_countP_key v k hact
    simp only [remove_key]
    omega
  · intro e he hek
    exact List.mem_filter.mpr ⟨he, by simpa using hek⟩
  · intro e he
    have := List.mem_filter.mp he
    exact ⟨this.1, by simpa using this.2⟩
  · intro draws now
    exact create_key_ok_of_free (remove_key v k) draws now hnp
      ⟨k, hpairs ▸ hk, hkfree⟩
  · obtain ⟨hk1, hk2⟩ := (mem_all_pairs v k).mp hk
    obtain ⟨i, hi, hpi⟩ := List.mem_iff_getElem.mp hk1
    obtain ⟨j, hj, hsj⟩ := List.mem_iff_getElem.mp hk2
    have h0 : 0 < v.word_count := hnp.1
    have hiw : i < v.word_count := by rw [hwcp]; exact hi
    have hjw : j < v.word_count := by rw [hwcs]; exact hj
    refine ⟨[(i, j)], 0, insert_entry (remove_key v k) k 0, ?_⟩
    have hri : random_idx (remove_key v k) (i, j) = some (i, j) := by
      rw [random_idx_of_pos (remove_key v k) (i, j)
        (by rw [remove_key_word_count]; exact h0)]
      simp only [remove_key_word_count]
      rw [Nat.mod_eq_of_lt hiw, Nat.mod_eq_of_lt hjw]
    simp only [create_key, hri, remove_key_prefix_words,
      remove_key_suffix_words,
      List.getElem?_eq_getElem hi, List.getElem?_eq_getElem hj, hpi, hsj,
      Prod.mk.eta, hkfree, Bool.false_eq_true, if_false]

/-- Witness for C9: releasing `("Red", "Fox")` from a fully loaded §8
vault frees capacity and lets a subsequent `create()` return it again. -/
theorem claim_C9_witness :
    ∃ vfull : KeyVault,
      ((keys_of vfull).Nodup ∧ key_active vfull ("Red", "Fox") = true ∧
        NoPanic vfull ∧ ("Red", "Fox") ∈ all_pairs vfull) ∧
      ((remove_key vfull ("Red", "Fox")).active_keys.length + 1 =
          vfull.active_keys.length ∧
        key_active (remove_key vfull ("Red", "Fox")) ("Red", "Fox") = false ∧
        (∀ e ∈ vfull.active_keys, e.1 ≠ ("Red", "Fox") →
          e ∈ (remove_key vfull ("Red", "Fox")).active_keys) ∧
        (∀ e ∈ (remove_key vfull ("Red", "Fox")).active_keys,
          e ∈ vfull.active_keys ∧ e.1 ≠ ("Red", "Fox"))) ∧
      (∀ (draws : List (Nat × Nat)) (now : Nat),
        ∃ c v', create_key (remove_key vfull ("Red", "Fox")) draws now =
          CreateOutcome.ok c v') ∧
      (∃ (draws : List (Nat × Nat)) (now : Nat) (v' : KeyVault),
        create_key (remove_key vfull ("Red", "Fox")) draws now =
          CreateOutcome.ok (render ("Red", "Fox")) v') :=
  ⟨{ vault_RBFO with
      active_keys :=
        [(("Red", "Fox"), 0), (("Red", "Owl"), 1), (("Blue", "Fox"), 2),
          (("Blue", "Owl"), 3)] },
    ⟨by decide, by decide, by decide, by decide⟩,
    claim_C9_release_then_create
      { vault_RBFO with
        active_keys :=
          [(("Red", "Fox"), 0), (("Red", "Owl"), 1), (("Blue", "Fox"), 2),
            (("Blue", "Owl"), 3)] }
      ("Red", "Fox") (by decide) (by decide) (by decide) (by decide)
      (by decide) (by decide)⟩



/-- Counterexample to C7 as stated: the three-token string `"a b c"` is
not rejected — `free_game_key` reaches `remove_key` with the first two
tokens and mutates the registry. -/
theorem claim_C7_counterexample :
    (split_spaces three_token_code).length = 3 ∧
    free_game_key { vault_RBFO with active_keys := [(("a", "b"), 7)] }
        three_token_code =
      Except.ok { vault_RBFO with active_keys := [] } :=
  ⟨rfl, rfl⟩

/-- **C7 (amended)**: the release path rejects — before touching the
registry, leaving the active set unchanged — exactly those strings that
split into fewer than two tokens; every string of two or more tokens
reaches `remove_key`, keyed by the first two tokens. -/
theorem claim_C7_release_reject_shape (v : KeyVault) (key_word : String) :
    ((split_spaces key_word).length < 2 →
      free_game_key v key_word = Except.error HandlerError.ApiBadRequest) ∧
    (2 ≤ (split_spaces key_word).length →
      ∃ p s rest, split_spaces key_word = p :: s :: rest ∧
        free_game_key v key_word = Except.ok (remove_key v (p, s))) := by
  cases hsplit : split_spaces key_word with
  | nil =>
    refine ⟨fun _ => ?_, fun h => by simp at h⟩
    simp [free_game_key, parse_key_word, hsplit]
  | cons p rest =>
    cases rest with
    | nil =>
      refine ⟨fun _ => ?_, fun h => by simp at h⟩
      simp [free_game_key, parse_key_word, hsplit]
    | cons s rest2 =>
      refine ⟨fun h => absurd h (by simp), fun _ => ⟨p, s, rest2, rfl, ?_⟩⟩
      simp [free_game_key, parse_key_word, hsplit]

/-- Witness for C7 (amended): the one-token string `"RedFox"` is rejected
with the 400 error and the vault is untouched. -/
theorem claim_C7_witness :
    free_game_key vault_RBFO one_token_code =
      Except.error HandlerError.ApiBadRequest :=
  (claim_C7_release_reject_shape vault_RBFO one_token_code).1 (by decide)

/-- Counterexample to C4 as stated: two non-empty lists of different
lengths are rejected (`IncompatibleLength`), while two empty lists are
accepted — both directions of the claimed iff fail on the code. -/
theorem claim_C4_counterexample :
    load (some (["a"], ["x", "y"])) =
      Except.error KeyVaultError.IncompatibleLength ∧
    load (some ([], [])) = Except.ok empty_vault :=
  ⟨rfl, rfl⟩

/-- **C4 (amended)**: loading fails iff the vocabulary store is
unreachable or the two word lists differ in length; no emptiness check is
performed, and on success the vault holds the two lists, an empty active
map, and their shared length truncated to `u8`. -/
theorem claim_C4_load_characterisation
    (store : Option (List String × List String)) :
    ((∃ e, load store = Except.error e) ↔
      store = none ∨ ∃ p s, store = some (p, s) ∧ p.length ≠ s.length) ∧
    (∀ p s, store = some (p, s) → p.length = s.length →
      load store = Except.ok
        { word_count := p.length % 256
          active_keys := []
          prefix_words := p
          suffix_words := s }) := by
  cases store with
  | none =>
    refine ⟨⟨fun _ => Or.inl rfl, fun _ => ⟨KeyVaultError.Database, rfl⟩⟩,
      fun p s h => by cases h⟩
  | some ps =>
    obtain ⟨p, s⟩ := ps
    constructor
    · constructor
      · rintro ⟨e, he⟩
        refine Or.inr ⟨p, s, rfl, ?_⟩
        intro hlen
        simp [load, load_words, hlen] at he
      · rintro (h | ⟨p', s', hps, hlen⟩)
        · cases h
        · have h1 := Option.some.inj hps
          obtain ⟨rfl, rfl⟩ : p = p' ∧ s = s' :=
            ⟨congrArg Prod.fst h1, congrArg Prod.snd h1⟩
          exact ⟨KeyVaultError.IncompatibleLength,
            by simp [load, load_words, hlen]⟩
    · intro p' s' hps hlen
      have h1 := Option.some.inj hps
      obtain ⟨rfl, rfl⟩ : p = p' ∧ s = s' :=
        ⟨congrArg Prod.fst h1, congrArg Prod.snd h1⟩
      simp [load, load_words, hlen]

/-- Witness for C4 (amended): the §8 vocabularies load successfully. -/
theorem claim_C4_witness :
    load (some (["Red", "Blue"], ["Fox", "Owl"])) =
      Except.ok
        { word_count := 2 % 256
          active_keys := []
          prefix_words := ["Red", "Blue"]
          suffix_words := ["Fox", "Owl"] } :=
  (claim_C4_load_characterisation
    (some (["Red", "Blue"], ["Fox", "Owl"]))).2
    ["Red", "Blue"] ["Fox", "Owl"] rfl (by decide)

/-- **C10**: `load_words` stores the vocabulary length cast to `u8`
(`len as u8`, i.e. `% 256`) and the random phase draws both indices from
`[0, word_count)`: for lists of more than 255 words the effective range is
the length's low byte, not the full length, and a zero low byte makes the
random draw sample an empty range (`none`, `rand`'s panic). -/
theorem claim_C10_word_count_u8 (p s : List String) (v : KeyVault)
    (h : load_words p s = Except.ok v) :
    v.word_count = p.length % 256 ∧
    (∀ r : Nat × Nat,
      random_idx v r =
        (if p.length % 256 = 0 then none
         else some (r.1 % (p.length % 256), r.2 % (p.length % 256)))) := by
  rw [load_words] at h
  by_cases hlen : p.length = s.length
  · rw [if_neg (fun hne => hne hlen)] at h
    have hv := Except.ok.inj h
    subst hv
    refine ⟨rfl, fun r => ?_⟩
    by_cases h0 : p.length % 256 = 0
    · simp [random_idx, random_range, h0]
    · simp [random_idx, random_range, h0]
  · rw [if_pos hlen] at h
    cases h

set_option maxRecDepth 8000 in
/-- Witness for C10: two 300-word vocabularies load with
`word_count = 300 % 256 = 44` and the random phase samples `[0, 44)`. -/
theorem claim_C10_witness :
    (load_words (List.replicate 300 "a") (List.replicate 300 "b") =
      Except.ok v300) ∧
    v300.word_count = (List.replicate 300 "a").length % 256 ∧
    (∀ r : Nat × Nat,
      random_idx v300 r =
        (if (List.replicate 300 "a").length % 256 = 0 then none
         else some (r.1 % ((List.replicate 300 "a").length % 256),
           r.2 % ((List.replicate 300 "a").length % 256)))) :=
  ⟨rfl,
    claim_C10_word_count_u8 (List.replicate 300 "a") (List.replicate 300 "b")
      v300 rfl⟩

set_option maxRecDepth 8000 in
/-- C6 demonstration: `load_words` accepts two empty word lists (and any
equal-length lists whose length's low byte is zero), after which the very
first random draw of `create_key` hits `rand`'s empty-range panic
(`random_range(0..0)`) — an operation reachable after a successful load
panics instead of returning a typed error. -/
theorem claim_C6_create_panics_after_ok_load :
    (load_words ([] : List String) [] = Except.ok empty_vault ∧
      create_key empty_vault [(0, 0)] 0 = CreateOutcome.panic) ∧
    (load_words (List.replicate 256 "w") (List.replicate 256 "w") =
        Except.ok v256 ∧
      create_key v256 [(3, 4)] 0 = CreateOutcome.panic) :=
  ⟨⟨rfl, rfl⟩, ⟨rfl, rfl⟩⟩

/-- C1 demonstration: the `contains_key` test and the `insert` in
`create_key`'s random-attempt body are two separate atomic `DashMap`
operations; under the interleaving check₁, check₂, insert₁, insert₂ of two
concurrent `create()` calls that drew the same free pair, both calls
succeed and both return `"Red Fox"`, which ends up active once — the
check-that-free and record steps are not one atomic `insert_if_absent`. -/
theorem claim_C1_check_then_insert_race :
    ((race_run [] ⟨("Red", "Fox"), 5, false, none⟩
        ⟨("Red", "Fox"), 6, false, none⟩
        [true, false, true, false]).2.1.result =
      some (render ("Red", "Fox")) ∧
    (race_run [] ⟨("Red", "Fox"), 5, false, none⟩
        ⟨("Red", "Fox"), 6, false, none⟩
        [true, false, true, false]).2.2.result =
      some (render ("Red", "Fox"))) ∧
    (race_run [] ⟨("Red", "Fox"), 5, false, none⟩
        ⟨("Red", "Fox"), 6, false, none⟩
        [true, false, true, false]).1 = [(("Red", "Fox"), 6)] := by
  decide

end TeroVault
